import Mathlib

/-!
Shallow embedding of `krux_sqs/sqs.py` (class `Sqs`).

The client holds a provider resource handle and a name-to-handle mapping
`_queues` (a Python dict, modelled as an association list).  Every public
operation is modelled as a pure function from the client state to a tuple
`(result, new state, provider calls issued, debug records emitted)`:

  * `get_queue`       models `Sqs._get_queue` (lazy lookup + cache);
  * `get_messages`    models `Sqs.get_messages` (receive + optional JSON parse);
  * `delete_messages` models `Sqs.delete_messages`;
  * `send_messages`   models `Sqs.send_messages` (type validation, entry
    building with random ids, chunking by `MAX_SEND_MESSAGES_NUM`).

External collaborators are parameters: the boto3 resource is a `Provider`
structure (by-name queue lookup, receive), the `simplejson` codec is a pair
`loads : String → Option J` / `dumps : J → String` over an abstract type `J`
of structured values, and `uuid`-based `_get_random_id` is a supply
`rand : Nat → String` indexed by the position of the message in the input.
Python exceptions are modelled with `Except`; calls already issued before an
exception stay in the trace component of the returned tuple.
-/

namespace KruxSqs

/-- Exceptions raised by the module: `TypeError` from `send_messages`,
`simplejson.JSONDecodeError` escaping `get_messages`, `KeyError` from the
dict accesses in `delete_messages`, and `NotImplementedError` from
`Sqs.__init__`. -/
inductive SqsError where
  | typeError (msg : String)
  | jsonDecodeError
  | keyError (key : String)
  | notImplementedError (msg : String)
deriving DecidableEq

/-- A raw message as returned by `queue.receive_messages` (boto3), with the
attribute maps kept opaque at type `A`. -/
structure RawMsg (A : Type) where
  receipt_handle : String
  message_id : String
  body : String
  message_attributes : A
  queue_url : String
  attributes : A
deriving DecidableEq

/-- The provider resource handle (`boto.resource('sqs')`): by-name queue
lookup and per-queue receive.  `H` is the opaque queue-handle type. -/
structure Provider (H A : Type) where
  get_queue_by_name : String → H
  receive_messages : H → List String → Nat → Nat → List (RawMsg A)

/-- One entry of a batch send: `{'Id': ..., 'MessageBody': ...}` plus the
optional `'MessageGroupId'` key. -/
structure SendEntry where
  Id : String
  MessageBody : String
  MessageGroupId : Option Int
deriving DecidableEq

/-- One entry of a batch delete: `{'Id': ..., 'ReceiptHandle': ...}`. -/
structure DeleteEntry where
  Id : String
  ReceiptHandle : String
deriving DecidableEq

/-- A provider call, recorded in the trace of each operation. -/
inductive Call (H : Type) where
  | get_queue_by_name (queue_name : String)
  | receive_messages (q : H) (attrs : List String) (num_msg timeout : Nat)
  | delete_messages (q : H) (entries : List DeleteEntry)
  | send_messages (q : H) (entries : List SendEntry)
deriving DecidableEq

/-- The mutable client state: the `_queues` dict (queue name → handle). -/
structure SqsState (H : Type) where
  queues : List (String × H)
deriving DecidableEq

/-- Python dict read with default: the expression `d.get(k, None)`. -/
def dictGet {H : Type} (d : List (String × H)) (k : String) : Option H :=
  match d with
  | [] => none
  | (k2, v) :: rest => if k2 = k then some v else dictGet rest k

/-- Python dict write (insert or replace): the statement `d[k] = v`. -/
def dictSet {H : Type} (d : List (String × H)) (k : String) (v : H) :
    List (String × H) :=
  match d with
  | [] => [(k, v)]
  | (k2, v2) :: rest => if k2 = k then (k, v) :: rest else (k2, v2) :: dictSet rest k v

/-- Models `Sqs.MAX_RECEIVE_MESSAGES_NUM`. -/
def MAX_RECEIVE_MESSAGES_NUM : Nat := 10

/-- Models `Sqs.MAX_SEND_MESSAGES_NUM`, the boto3 batch-send cap. -/
def MAX_SEND_MESSAGES_NUM : Nat := 10

/-- Models `Sqs.RECEIVE_MESSAGES_TIMEOUT`. -/
def RECEIVE_MESSAGES_TIMEOUT : Nat := 10

/-- Models `Sqs.DEFAULT_MESSAGE_ATTRIBUTE_NAME`. -/
def DEFAULT_MESSAGE_ATTRIBUTE_NAME : List String := ["All"]

/-- The `boto` constructor argument: either a genuine `krux_boto.boto.Boto3`
(carrying the resource used by the client) or any other Python object. -/
inductive BotoArg (H A : Type) where
  | boto3 (res : Provider H A)
  | other

/-- Models `Sqs.__init__`: rejects any non-`Boto3` argument with
`NotImplementedError`, otherwise starts with an empty `_queues` dict. -/
def sqs_init {H A : Type} (boto : BotoArg H A) : Except SqsError (SqsState H) :=
  match boto with
  | .boto3 _ => .ok { queues := [] }
  | .other => .error (.notImplementedError
      "Currently krux_boto.sqs.Sqs only supports krux_boto.boto.Boto3")

/-- Models `Sqs._get_queue`: if `self._queues.get(queue_name, None) is None`, call
`self._resource.get_queue_by_name(QueueName=queue_name)` and store the
result; return the mapping entry.  The trace records the by-name lookup when
(and only when) it happens. -/
def get_queue {H A : Type} (P : Provider H A) (s : SqsState H)
    (queue_name : String) : H × SqsState H × List (Call H) :=
  match dictGet s.queues queue_name with
  | some q => (q, s, [])
  | none =>
      let q := P.get_queue_by_name queue_name
      (q, { queues := dictSet s.queues queue_name q },
        [Call.get_queue_by_name queue_name])

/-- The `'Body'` value of a parsed message dict: structured when `is_json`,
the raw string otherwise. -/
inductive MsgBody (J : Type) where
  | json (v : J)
  | raw (s : String)
deriving DecidableEq

/-- The `msg_dict` built for each received message by `Sqs.get_messages`. -/
structure MsgDict (J A : Type) where
  ReceiptHandle : String
  MessageId : String
  Body : MsgBody J
  MessageAttributes : A
  QueueUrl : String
  Attributes : A
deriving DecidableEq

/-- The per-message loop of `Sqs.get_messages`: parse each body (with
`simplejson.loads`, modelled by `loads`) when `is_json`, and build the
`msg_dict` list; a decode failure aborts the whole loop. -/
def parse_messages {J A : Type} (is_json : Bool) (loads : String → Option J) :
    List (RawMsg A) → Except SqsError (List (MsgDict J A))
  | [] => .ok []
  | msg :: rest => do
      let body ←
        if is_json then
          match loads msg.body with
          | some v => Except.ok (MsgBody.json v)
          | none => Except.error SqsError.jsonDecodeError
        else
          Except.ok (MsgBody.raw msg.body)
      let tail ← parse_messages is_json loads rest
      Except.ok ({ ReceiptHandle := msg.receipt_handle,
                   MessageId := msg.message_id,
                   Body := body,
                   MessageAttributes := msg.message_attributes,
                   QueueUrl := msg.queue_url,
                   Attributes := msg.attributes } :: tail)

/-- Models `Sqs.get_messages`: resolve the queue, issue one receive call, emit one
debug record, then map the raw messages through the parsing loop. -/
def get_messages {H A J : Type} (P : Provider H A) (loads : String → Option J)
    (s : SqsState H) (queue_name : String)
    (message_attribute_names : List String) (num_msg : Nat) (timeout : Nat)
    (is_json : Bool) :
    Except SqsError (List (MsgDict J A)) × SqsState H × List (Call H) × Nat :=
  let r := get_queue P s queue_name
  let raw_messages := P.receive_messages r.1 message_attribute_names num_msg timeout
  (parse_messages is_json loads raw_messages, r.2.1,
    r.2.2 ++ [Call.receive_messages r.1 message_attribute_names num_msg timeout],
    1)

/-- An element of the `messages` argument of `delete_messages`: a Python dict
whose `'MessageId'` / `'ReceiptHandle'` keys may each be present or absent
(`msg['MessageId']` on an absent key raises `KeyError`). -/
structure MsgRef where
  MessageId : Option String
  ReceiptHandle : Option String
deriving DecidableEq

/-- The list comprehension of `Sqs.delete_messages`: one `DeleteEntry` per
message, in order, raising `KeyError` at the first missing key (`'Id'` is
evaluated before `'ReceiptHandle'` within each element). -/
def build_delete_entries : List MsgRef → Except SqsError (List DeleteEntry)
  | [] => .ok []
  | msg :: rest =>
      match msg.MessageId with
      | none => .error (.keyError "MessageId")
      | some i =>
          match msg.ReceiptHandle with
          | none => .error (.keyError "ReceiptHandle")
          | some r =>
              (build_delete_entries rest).map
                (fun tail => { Id := i, ReceiptHandle := r } :: tail)

/-- Models `Sqs.delete_messages`: on a non-empty list, build the entries, emit one
debug record, resolve the queue and issue one batch delete; on an empty list,
emit one debug record and do nothing. -/
def delete_messages {H A : Type} (P : Provider H A) (s : SqsState H)
    (queue_name : String) (messages : List MsgRef) :
    Except SqsError Unit × SqsState H × List (Call H) × Nat :=
  if messages.length > 0 then
    match build_delete_entries messages with
    | .error e => (.error e, s, [], 0)
    | .ok entries =>
        let r := get_queue P s queue_name
        (.ok (), r.2.1, r.2.2 ++ [Call.delete_messages r.1 entries], 1)
  else
    (.ok (), s, [], 1)

/-- An element of the `messages` argument of `send_messages`: a dict
(structured value of type `J`), a string, or a value of any other type. -/
inductive OutMsg (J : Type) where
  | dict (v : J)
  | str (s : String)
  | other
deriving DecidableEq

/-- The entry-building loop of `Sqs.send_messages`: serialize dicts with
`simplejson.dumps` (modelled by `dumps`), pass strings through, raise
`TypeError` on anything else; each entry gets the next random id
(`rand i` for the `i`-th input message) and, when `group_id` is supplied,
the `'MessageGroupId'` key. -/
def build_send_entries {J : Type} (dumps : J → String) (rand : Nat → String)
    (group_id : Option Int) : Nat → List (OutMsg J) → Except SqsError (List SendEntry)
  | _, [] => .ok []
  | i, message :: rest =>
      match message with
      | .dict v =>
          (build_send_entries dumps rand group_id (i + 1) rest).map
            (fun tail =>
              { Id := rand i, MessageBody := dumps v, MessageGroupId := group_id } :: tail)
      | .str m =>
          (build_send_entries dumps rand group_id (i + 1) rest).map
            (fun tail =>
              { Id := rand i, MessageBody := m, MessageGroupId := group_id } :: tail)
      | .other => .error (.typeError "Message must be either a dictionary or a string")

/-- Chunking with explicit fuel (`fuel` bounds the recursion depth; it is
instantiated with the list length, which always suffices).  Each step takes
`n` elements (`entries[i:i+n]`) and recurses on the rest. -/
def chunksOfAux {α : Type} (n : Nat) : Nat → List α → List (List α)
  | _, [] => []
  | 0, l => [l]
  | fuel + 1, x :: xs =>
      (x :: List.take (n - 1) xs) :: chunksOfAux n fuel (List.drop (n - 1) xs)

/-- The chunking loop of `Sqs.send_messages`:
`for i in range(0, len(entries), n): entries[i:i+n]`. -/
def chunksOf {α : Type} (n : Nat) (l : List α) : List (List α) :=
  chunksOfAux n l.length l

/-- Models `Sqs.send_messages`: on a non-empty list, build all entries (validation
happens here, before any provider interaction), emit one debug record,
resolve the queue, and issue one batch send per chunk of at most
`MAX_SEND_MESSAGES_NUM` entries, in order; on an empty list, emit one debug
record and do nothing. -/
def send_messages {H A J : Type} (P : Provider H A) (dumps : J → String)
    (rand : Nat → String) (s : SqsState H) (queue_name : String)
    (messages : List (OutMsg J)) (group_id : Option Int) :
    Except SqsError Unit × SqsState H × List (Call H) × Nat :=
  if messages.isEmpty then
    (.ok (), s, [], 1)
  else
    match build_send_entries dumps rand group_id 0 messages with
    | .error e => (.error e, s, [], 0)
    | .ok entries =>
        let r := get_queue P s queue_name
        let chunks := chunksOf MAX_SEND_MESSAGES_NUM entries
        (.ok (), r.2.1, r.2.2 ++ chunks.map (Call.send_messages r.1), 1)

/-- One public operation on the client (`_get_queue` itself, `get_messages`,
`delete_messages`, or `send_messages`), used to reason about whole call
sequences over a client's lifetime. -/
inductive Op (J : Type) where
  | resolve (queue_name : String)
  | get (queue_name : String) (attrs : List String) (num_msg timeout : Nat)
      (is_json : Bool)
  | delete (queue_name : String) (messages : List MsgRef)
  | send (queue_name : String) (messages : List (OutMsg J)) (group_id : Option Int)

/-- Run one operation: the state it leaves and the provider calls it issues. -/
def run_op {H A J : Type} (P : Provider H A) (loads : String → Option J)
    (dumps : J → String) (rand : Nat → String) (s : SqsState H) :
    Op J → SqsState H × List (Call H)
  | .resolve qn => ((get_queue P s qn).2.1, (get_queue P s qn).2.2)
  | .get qn attrs n t ij =>
      ((get_messages P loads s qn attrs n t ij).2.1,
       (get_messages P loads s qn attrs n t ij).2.2.1)
  | .delete qn ms =>
      ((delete_messages P s qn ms).2.1, (delete_messages P s qn ms).2.2.1)
  | .send qn ms gid =>
      ((send_messages P dumps rand s qn ms gid).2.1,
       (send_messages P dumps rand s qn ms gid).2.2.1)

/-- Run a sequence of operations from a state, concatenating the traces. -/
def run_ops {H A J : Type} (P : Provider H A) (loads : String → Option J)
    (dumps : J → String) (rand : Nat → String) (s : SqsState H) :
    List (Op J) → SqsState H × List (Call H)
  | [] => (s, [])
  | op :: rest =>
      let r := run_op P loads dumps rand s op
      let r2 := run_ops P loads dumps rand r.1 rest
      (r2.1, r.2 ++ r2.2)

/-- How many by-name lookups for `name` a trace contains. -/
def count_lookups {H : Type} (name : String) (calls : List (Call H)) : Nat :=
  (calls.filter (fun c =>
    match c with
    | Call.get_queue_by_name n => n == name
    | _ => false)).length

/-- The entry lists of the batch-send calls of a trace, in order. -/
def sent_entry_lists {H : Type} (calls : List (Call H)) : List (List SendEntry) :=
  calls.filterMap (fun c =>
    match c with
    | Call.send_messages _ es => some es
    | _ => none)

/-- The entry lists of the batch-delete calls of a trace, in order. -/
def deleted_entry_lists {H : Type} (calls : List (Call H)) : List (List DeleteEntry) :=
  calls.filterMap (fun c =>
    match c with
    | Call.delete_messages _ es => some es
    | _ => none)

/-- The chunk sizes produced by `chunksOfAux`, as a function of the input
length only. -/
def chunkSizesAux (n : Nat) : Nat → Nat → List Nat
  | _, 0 => []
  | 0, len => [len]
  | fuel + 1, len + 1 => (1 + min (n - 1) len) :: chunkSizesAux n fuel (len - (n - 1))

/-! ### Fixtures used by the witness theorems -/

/-- A concrete provider: every lookup returns handle `7`, every receive
returns one message with body `"42"`. -/
def provW : Provider Nat Unit :=
  { get_queue_by_name := fun _ => 7,
    receive_messages := fun _ _ _ _ => [⟨"rh", "mid", "42", (), "url", ()⟩] }

/-- A concrete provider whose receive returns one message with body `"bad"`. -/
def provBadW : Provider Nat Unit :=
  { get_queue_by_name := fun _ => 7,
    receive_messages := fun _ _ _ _ => [⟨"rh", "mid", "bad", (), "url", ()⟩] }

/-- A concrete codec decoder over `J := String` that fails on `"bad"`. -/
def loadsW : String → Option String := fun s => if s = "bad" then none else some s

/-- A concrete total codec decoder over `J := String`. -/
def loadsIdW : String → Option String := fun s => some s

/-- A concrete codec encoder over `J := String`. -/
def dumpsW : String → String := fun s => s

/-- A concrete id supply. -/
def randW : Nat → String := fun _ => "r"

/-! ### Dictionary lemmas -/

theorem dictGet_dictSet_self {H : Type} (d : List (String × H)) (k : String) (v : H) :
    dictGet (dictSet d k v) k = some v := by
  induction d with
  | nil => simp [dictGet, dictSet]
  | cons p rest ih =>
      by_cases h : p.1 = k
      · simp [dictGet, dictSet, h]
      · simp [dictGet, dictSet, h, ih]

theorem dictGet_dictSet_ne {H : Type} (d : List (String × H)) (k k2 : String) (v : H)
    (h : k2 ≠ k) : dictGet (dictSet d k v) k2 = dictGet d k2 := by
  induction d with
  | nil => simp [dictGet, dictSet, Ne.symm h]
  | cons p rest ih =>
      by_cases hp : p.1 = k
      · subst hp
        simp [dictGet, dictSet, Ne.symm h]
      · simp [dictGet, dictSet, hp, ih]

/-! ### `get_queue` lemmas -/

theorem get_queue_cached {H A : Type} (P : Provider H A) (s : SqsState H)
    (qn : String) (q : H) (h : dictGet s.queues qn = some q) :
    get_queue P s qn = (q, s, []) := by
  simp [get_queue, h]

theorem get_queue_uncached {H A : Type} (P : Provider H A) (s : SqsState H)
    (qn : String) (h : dictGet s.queues qn = none) :
    get_queue P s qn =
      (P.get_queue_by_name qn,
       { queues := dictSet s.queues qn (P.get_queue_by_name qn) },
       [Call.get_queue_by_name qn]) := by
  simp [get_queue, h]

theorem count_lookups_nil {H : Type} (n : String) :
    count_lookups (H := H) n [] = 0 := rfl

theorem count_lookups_append {H : Type} (n : String) (a b : List (Call H)) :
    count_lookups n (a ++ b) = count_lookups n a + count_lookups n b := by
  simp [count_lookups, List.filter_append]

theorem count_lookups_single {H : Type} (n qn : String) :
    count_lookups (H := H) n [Call.get_queue_by_name qn] =
      if qn = n then 1 else 0 := by
  by_cases h : qn = n
  · subst h
    simp [count_lookups, List.filter]
  · have hb : (qn == n) = false := beq_eq_false_iff_ne.mpr h
    simp [count_lookups, List.filter, hb, h]

theorem get_queue_count_le {H A : Type} (P : Provider H A) (s : SqsState H)
    (qn n : String) : count_lookups n (get_queue P s qn).2.2 ≤ 1 := by
  cases h : dictGet s.queues qn with
  | some q => simp [get_queue_cached P s qn q h, count_lookups_nil]
  | none =>
      rw [get_queue_uncached P s qn h]
      simp only [count_lookups_single]
      by_cases hq : qn = n <;> simp [hq]

theorem get_queue_preserves {H A : Type} (P : Provider H A) (s : SqsState H)
    (qn n : String) (v : H) (h : dictGet s.queues n = some v) :
    dictGet (get_queue P s qn).2.1.queues n = some v := by
  cases hq : dictGet s.queues qn with
  | some q => simp [get_queue_cached P s qn q hq, h]
  | none =>
      rw [get_queue_uncached P s qn hq]
      have hne : n ≠ qn := by
        intro he
        rw [he, hq] at h
        exact Option.noConfusion h
      simpa [dictGet_dictSet_ne _ _ _ _ hne] using h

theorem get_queue_count_cached {H A : Type} (P : Provider H A) (s : SqsState H)
    (qn n : String) (v : H) (h : dictGet s.queues n = some v) :
    count_lookups n (get_queue P s qn).2.2 = 0 := by
  cases hq : dictGet s.queues qn with
  | some q => simp [get_queue_cached P s qn q hq, count_lookups_nil]
  | none =>
      rw [get_queue_uncached P s qn hq]
      have hne : qn ≠ n := by
        intro he
        rw [he, h] at hq
        exact Option.noConfusion hq
      simp [count_lookups_single, hne]

theorem get_queue_lookup_caches {H A : Type} (P : Provider H A) (s : SqsState H)
    (qn n : String) (h : 1 ≤ count_lookups n (get_queue P s qn).2.2) :
    (dictGet (get_queue P s qn).2.1.queues n).isSome := by
  cases hq : dictGet s.queues qn with
  | some q =>
      rw [get_queue_cached P s qn q hq] at h
      simp [count_lookups_nil] at h
  | none =>
      rw [get_queue_uncached P s qn hq] at h ⊢
      by_cases he : qn = n
      · subst he
        simp [dictGet_dictSet_self]
      · simp [count_lookups_single, he] at h

theorem count_lookups_map_send {H : Type} (n : String) (q : H)
    (l : List (List SendEntry)) :
    count_lookups n (l.map (Call.send_messages q)) = 0 := by
  induction l with
  | nil => rfl
  | cons c rest ih => simp [count_lookups, List.filter] at ih ⊢

/-- The three cache/trace facts, for any operation whose state and trace are
either untouched or exactly those of one `get_queue` step followed by
lookup-free extra calls. -/
theorem trace_facts_aux {H A : Type} (P : Provider H A) (s : SqsState H)
    (qn n : String) (st : SqsState H) (tr : List (Call H))
    (hcase : (st = s ∧ tr = []) ∨
      (st = (get_queue P s qn).2.1 ∧
        ∃ extra, tr = (get_queue P s qn).2.2 ++ extra ∧ count_lookups n extra = 0)) :
    (∀ v, dictGet s.queues n = some v →
        dictGet st.queues n = some v ∧ count_lookups n tr = 0)
    ∧ count_lookups n tr ≤ 1
    ∧ (1 ≤ count_lookups n tr → (dictGet st.queues n).isSome) := by
  rcases hcase with ⟨hst, htr⟩ | ⟨hst, extra, htr, hextra⟩
  · subst hst; subst htr
    refine ⟨fun v hv => ⟨hv, rfl⟩, by simp [count_lookups_nil], fun h => ?_⟩
    simp [count_lookups_nil] at h
  · subst hst; subst htr
    refine ⟨fun v hv => ?_, ?_, fun h => ?_⟩
    · exact ⟨get_queue_preserves P s qn n v hv,
        by rw [count_lookups_append, get_queue_count_cached P s qn n v hv, hextra]⟩
    · rw [count_lookups_append, hextra]
      simpa using get_queue_count_le P s qn n
    · rw [count_lookups_append, hextra] at h
      exact get_queue_lookup_caches P s qn n (by omega)

/-- Cache/trace facts for a single public operation: a cached name stays
cached (same handle) and triggers no lookup; any operation performs at most
one lookup for a given name; an operation that did look a name up leaves it
cached. -/
theorem run_op_facts {H A J : Type} (P : Provider H A) (loads : String → Option J)
    (dumps : J → String) (rand : Nat → String) (s : SqsState H) (op : Op J)
    (n : String) :
    (∀ v, dictGet s.queues n = some v →
        dictGet (run_op P loads dumps rand s op).1.queues n = some v ∧
        count_lookups n (run_op P loads dumps rand s op).2 = 0)
    ∧ count_lookups n (run_op P loads dumps rand s op).2 ≤ 1
    ∧ (1 ≤ count_lookups n (run_op P loads dumps rand s op).2 →
        (dictGet (run_op P loads dumps rand s op).1.queues n).isSome) := by
  cases op with
  | resolve qn =>
      exact trace_facts_aux P s qn n _ _
        (Or.inr ⟨rfl, [], (List.append_nil _).symm, rfl⟩)
  | get qn attrs nm t ij =>
      exact trace_facts_aux P s qn n _ _ (Or.inr ⟨rfl, _, rfl, rfl⟩)
  | delete qn ms =>
      by_cases hl : ms.length > 0
      · cases hb : build_delete_entries ms with
        | error e =>
            have hst : run_op P loads dumps rand s (Op.delete qn ms) = (s, []) := by
              simp [run_op, delete_messages, hl, hb]
            rw [hst]
            exact trace_facts_aux P s qn n s [] (Or.inl ⟨rfl, rfl⟩)
        | ok entries =>
            have hst : run_op P loads dumps rand s (Op.delete qn ms) =
                ((get_queue P s qn).2.1,
                 (get_queue P s qn).2.2 ++
                   [Call.delete_messages (get_queue P s qn).1 entries]) := by
              simp [run_op, delete_messages, hl, hb]
            rw [hst]
            exact trace_facts_aux P s qn n _ _ (Or.inr ⟨rfl, _, rfl, rfl⟩)
      · have hst : run_op P loads dumps rand s (Op.delete qn ms) = (s, []) := by
          simp [run_op, delete_messages, hl]
        rw [hst]
        exact trace_facts_aux P s qn n s [] (Or.inl ⟨rfl, rfl⟩)
  | send qn ms gid =>
      by_cases he : ms.isEmpty
      · have hst : run_op P loads dumps rand s (Op.send qn ms gid) = (s, []) := by
          simp [run_op, send_messages, he]
        rw [hst]
        exact trace_facts_aux P s qn n s [] (Or.inl ⟨rfl, rfl⟩)
      · cases hb : build_send_entries dumps rand gid 0 ms with
        | error e =>
            have hst : run_op P loads dumps rand s (Op.send qn ms gid) = (s, []) := by
              simp [run_op, send_messages, he, hb]
            rw [hst]
            exact trace_facts_aux P s qn n s [] (Or.inl ⟨rfl, rfl⟩)
        | ok entries =>
            have hst : run_op P loads dumps rand s (Op.send qn ms gid) =
                ((get_queue P s qn).2.1,
                 (get_queue P s qn).2.2 ++
                   (chunksOf MAX_SEND_MESSAGES_NUM entries).map
                     (Call.send_messages (get_queue P s qn).1)) := by
              simp [run_op, send_messages, he, hb]
            rw [hst]
            exact trace_facts_aux P s qn n _ _
              (Or.inr ⟨rfl, _, rfl, count_lookups_map_send n _ _⟩)

/-- Cache/trace facts for a whole operation sequence. -/
theorem run_ops_facts {H A J : Type} (P : Provider H A) (loads : String → Option J)
    (dumps : J → String) (rand : Nat → String) (n : String) (ops : List (Op J)) :
    ∀ s : SqsState H,
      (∀ v, dictGet s.queues n = some v →
          dictGet (run_ops P loads dumps rand s ops).1.queues n = some v ∧
          count_lookups n (run_ops P loads dumps rand s ops).2 = 0)
      ∧ count_lookups n (run_ops P loads dumps rand s ops).2 ≤ 1 := by
  induction ops with
  | nil =>
      intro s
      exact ⟨fun v hv => ⟨hv, rfl⟩, by simp [run_ops, count_lookups_nil]⟩
  | cons op rest ih =>
      intro s
      have h1 := run_op_facts P loads dumps rand s op n
      have h2 := ih (run_op P loads dumps rand s op).1
      have htr : (run_ops P loads dumps rand s (op :: rest)).2 =
          (run_op P loads dumps rand s op).2 ++
            (run_ops P loads dumps rand (run_op P loads dumps rand s op).1 rest).2 := rfl
      have hstate : (run_ops P loads dumps rand s (op :: rest)).1 =
          (run_ops P loads dumps rand (run_op P loads dumps rand s op).1 rest).1 := rfl
      constructor
      · intro v hv
        obtain ⟨hv1, hc1⟩ := h1.1 v hv
        obtain ⟨hv2, hc2⟩ := h2.1 v hv1
        exact ⟨by rw [hstate]; exact hv2, by rw [htr, count_lookups_append, hc1, hc2]⟩
      · rw [htr, count_lookups_append]
        by_cases hc : 1 ≤ count_lookups n (run_op P loads dumps rand s op).2
        · have := h1.2.2 hc
          obtain ⟨v, hv⟩ := Option.isSome_iff_exists.mp this
          have := (h2.1 v hv).2
          omega
        · have h0 : count_lookups n (run_op P loads dumps rand s op).2 = 0 := by omega
          have := h2.2
          omega

/-! ### Chunking lemmas -/

theorem chunksOfAux_flatten {α : Type} (n : Nat) :
    ∀ (fuel : Nat) (l : List α), (chunksOfAux n fuel l).flatten = l := by
  intro fuel
  induction fuel with
  | zero =>
      intro l
      cases l with
      | nil => rfl
      | cons x xs => simp [chunksOfAux]
  | succ fuel ih =>
      intro l
      cases l with
      | nil => rfl
      | cons x xs =>
          simp [chunksOfAux, ih]

theorem chunksOfAux_mem {α : Type} (n : Nat) (hn : 1 ≤ n) :
    ∀ (fuel : Nat) (l : List α), l.length ≤ fuel →
      ∀ c ∈ chunksOfAux n fuel l, c.length ≤ n ∧ c ≠ [] := by
  intro fuel
  induction fuel with
  | zero =>
      intro l hl c hc
      cases l with
      | nil => simp [chunksOfAux] at hc
      | cons x xs => simp at hl
  | succ fuel ih =>
      intro l hl c hc
      cases l with
      | nil => simp [chunksOfAux] at hc
      | cons x xs =>
          simp only [chunksOfAux, List.mem_cons] at hc
          rcases hc with hc | hc
          · subst hc
            refine ⟨?_, by simp⟩
            have : (List.take (n - 1) xs).length ≤ n - 1 := by
              simp [List.length_take]
            simp only [List.length_cons]
            omega
          · have hlen : (List.drop (n - 1) xs).length ≤ fuel := by
              simp only [List.length_drop]
              simp only [List.length_cons] at hl
              omega
            exact ih (List.drop (n - 1) xs) hlen c hc

theorem map_length_chunksOfAux {α : Type} (n : Nat) :
    ∀ (fuel : Nat) (l : List α),
      (chunksOfAux n fuel l).map List.length = chunkSizesAux n fuel l.length := by
  intro fuel
  induction fuel with
  | zero =>
      intro l
      cases l with
      | nil => rfl
      | cons x xs => simp [chunksOfAux, chunkSizesAux]
  | succ fuel ih =>
      intro l
      cases l with
      | nil => rfl
      | cons x xs =>
          simp only [chunksOfAux, List.map_cons, ih, List.length_cons,
            List.length_drop, chunkSizesAux, List.length_take]
          rw [Nat.add_comm]

theorem chunksOf_flatten {α : Type} (n : Nat) (l : List α) :
    (chunksOf n l).flatten = l :=
  chunksOfAux_flatten n l.length l

theorem chunksOf_mem {α : Type} (n : Nat) (hn : 1 ≤ n) (l : List α) :
    ∀ c ∈ chunksOf n l, c.length ≤ n ∧ c ≠ [] :=
  chunksOfAux_mem n hn l.length l (Nat.le_refl _)

theorem map_length_chunksOf {α : Type} (n : Nat) (l : List α) :
    (chunksOf n l).map List.length = chunkSizesAux n l.length l.length :=
  map_length_chunksOfAux n l.length l

/-! ### `build_send_entries` lemmas -/

theorem build_send_entries_ok {J : Type} (dumps : J → String) (rand : Nat → String)
    (gid : Option Int) (messages : List (OutMsg J))
    (hvalid : ∀ m ∈ messages, m ≠ OutMsg.other) :
    ∀ i, ∃ entries,
      build_send_entries dumps rand gid i messages = .ok entries ∧
      entries.length = messages.length ∧
      (∀ e ∈ entries, e.MessageGroupId = gid) ∧
      List.Forall₂ (fun m e =>
        (∀ v, m = OutMsg.dict v → e.MessageBody = dumps v) ∧
        (∀ t, m = OutMsg.str t → e.MessageBody = t)) messages entries := by
  induction messages with
  | nil => exact fun i => ⟨[], rfl, rfl, by simp, List.Forall₂.nil⟩
  | cons m rest ih =>
      intro i
      obtain ⟨tail, htail, hlen, hgid, hrel⟩ :=
        ih (fun x hx => hvalid x (List.mem_cons_of_mem m hx)) (i + 1)
      cases m with
      | dict v =>
          refine ⟨{ Id := rand i, MessageBody := dumps v, MessageGroupId := gid } :: tail,
            by simp [build_send_entries, htail, Except.map], by simp [hlen],
            fun e he => ?_, List.Forall₂.cons ⟨fun v2 hv2 => ?_, fun t2 ht2 => ?_⟩ hrel⟩
          · rcases List.mem_cons.mp he with he | he
            · rw [he]
            · exact hgid e he
          · cases hv2
            rfl
          · cases ht2
      | str t =>
          refine ⟨{ Id := rand i, MessageBody := t, MessageGroupId := gid } :: tail,
            by simp [build_send_entries, htail, Except.map], by simp [hlen],
            fun e he => ?_, List.Forall₂.cons ⟨fun v2 hv2 => ?_, fun t2 ht2 => ?_⟩ hrel⟩
          · rcases List.mem_cons.mp he with he | he
            · rw [he]
            · exact hgid e he
          · cases hv2
          · cases ht2
            rfl
      | other => exact absurd rfl (hvalid OutMsg.other (List.mem_cons_self _ _))

theorem build_send_entries_other {J : Type} (dumps : J → String) (rand : Nat → String)
    (gid : Option Int) (messages : List (OutMsg J))
    (hbad : OutMsg.other ∈ messages) :
    ∀ i, build_send_entries dumps rand gid i messages =
      .error (.typeError "Message must be either a dictionary or a string") := by
  induction messages with
  | nil => cases hbad
  | cons m rest ih =>
      intro i
      cases m with
      | dict v =>
          have hmem : OutMsg.other ∈ rest := by
            rcases List.mem_cons.mp hbad with h | h
            · exact absurd h (by simp)
            · exact h
          simp [build_send_entries, ih hmem (i + 1), Except.map]
      | str t =>
          have hmem : OutMsg.other ∈ rest := by
            rcases List.mem_cons.mp hbad with h | h
            · exact absurd h (by simp)
            · exact h
          simp [build_send_entries, ih hmem (i + 1), Except.map]
      | other => rfl

/-! ### `sent_entry_lists` lemmas -/

theorem sent_entry_lists_get_queue {H A : Type} (P : Provider H A)
    (s : SqsState H) (qn : String) :
    sent_entry_lists (get_queue P s qn).2.2 = [] := by
  cases h : dictGet s.queues qn with
  | some q => rw [get_queue_cached P s qn q h]; rfl
  | none => rw [get_queue_uncached P s qn h]; rfl

theorem sent_entry_lists_map_send {H : Type} (q : H) (l : List (List SendEntry)) :
    sent_entry_lists (l.map (Call.send_messages q)) = l := by
  induction l with
  | nil => rfl
  | cons c rest ih => simp [sent_entry_lists, List.filterMap] at ih ⊢; exact ih

theorem sent_entry_lists_append {H : Type} (a b : List (Call H)) :
    sent_entry_lists (a ++ b) = sent_entry_lists a ++ sent_entry_lists b :=
  List.filterMap_append a b _

/-- Running `send_messages` on a non-empty, successfully validated input: resolve the
queue and issue the chunked sends. -/
theorem send_messages_ok_unfold {H A J : Type} (P : Provider H A)
    (dumps : J → String) (rand : Nat → String) (s : SqsState H) (qn : String)
    (messages : List (OutMsg J)) (gid : Option Int) (entries : List SendEntry)
    (hne : messages ≠ [])
    (hb : build_send_entries dumps rand gid 0 messages = .ok entries) :
    send_messages P dumps rand s qn messages gid =
      (.ok (), (get_queue P s qn).2.1,
       (get_queue P s qn).2.2 ++
         (chunksOf MAX_SEND_MESSAGES_NUM entries).map
           (Call.send_messages (get_queue P s qn).1),
       1) := by
  have he : messages.isEmpty = false := List.isEmpty_eq_false.mpr hne
  simp [send_messages, he, hb]

/-! ### `build_delete_entries` and `delete_messages` lemmas -/

theorem build_delete_entries_ok (messages : List MsgRef)
    (hfields : ∀ m ∈ messages, m.MessageId.isSome ∧ m.ReceiptHandle.isSome) :
    ∃ entries, build_delete_entries messages = .ok entries ∧
      entries.length = messages.length ∧
      List.Forall₂ (fun m e =>
        m.MessageId = some e.Id ∧ m.ReceiptHandle = some e.ReceiptHandle)
        messages entries := by
  induction messages with
  | nil => exact ⟨[], rfl, rfl, List.Forall₂.nil⟩
  | cons m rest ih =>
      obtain ⟨tail, htail, hlen, hrel⟩ :=
        ih (fun x hx => hfields x (List.mem_cons_of_mem m hx))
      obtain ⟨hmi, hrh⟩ := hfields m (List.mem_cons_self _ _)
      obtain ⟨i, hi⟩ := Option.isSome_iff_exists.mp hmi
      obtain ⟨r, hr⟩ := Option.isSome_iff_exists.mp hrh
      refine ⟨{ Id := i, ReceiptHandle := r } :: tail, ?_, by simp [hlen], ?_⟩
      · simp [build_delete_entries, hi, hr, htail, Except.map]
      · exact List.Forall₂.cons ⟨hi, hr⟩ hrel

theorem build_delete_entries_missing (messages : List MsgRef)
    (hmiss : ∃ m ∈ messages, m.MessageId = none ∨ m.ReceiptHandle = none) :
    ∃ k, build_delete_entries messages = .error (.keyError k) ∧
      (k = "MessageId" ∨ k = "ReceiptHandle") := by
  induction messages with
  | nil => obtain ⟨m, hm, _⟩ := hmiss; cases hm
  | cons m rest ih =>
      cases hmi : m.MessageId with
      | none => exact ⟨"MessageId", by simp [build_delete_entries, hmi], Or.inl rfl⟩
      | some i =>
          cases hrh : m.ReceiptHandle with
          | none =>
              exact ⟨"ReceiptHandle", by simp [build_delete_entries, hmi, hrh],
                Or.inr rfl⟩
          | some r =>
              have hrest : ∃ m2 ∈ rest, m2.MessageId = none ∨ m2.ReceiptHandle = none := by
                obtain ⟨m2, hm2, hnone⟩ := hmiss
                rcases List.mem_cons.mp hm2 with rfl | hm3
                · rcases hnone with h | h
                  · rw [hmi] at h; cases h
                  · rw [hrh] at h; cases h
                · exact ⟨m2, hm3, hnone⟩
              obtain ⟨k, hk, hor⟩ := ih hrest
              exact ⟨k, by simp [build_delete_entries, hmi, hrh, hk, Except.map], hor⟩

/-- Running `delete_messages` on a non-empty input whose entries all build: resolve
the queue and issue the single batch delete. -/
theorem delete_messages_ok_unfold {H A : Type} (P : Provider H A) (s : SqsState H)
    (qn : String) (messages : List MsgRef) (entries : List DeleteEntry)
    (hne : messages ≠ []) (hb : build_delete_entries messages = .ok entries) :
    delete_messages P s qn messages =
      (.ok (), (get_queue P s qn).2.1,
       (get_queue P s qn).2.2 ++ [Call.delete_messages (get_queue P s qn).1 entries],
       1) := by
  have hl : messages.length > 0 := List.length_pos.mpr hne
  simp [delete_messages, hl, hb]

theorem deleted_entry_lists_append {H : Type} (a b : List (Call H)) :
    deleted_entry_lists (a ++ b) = deleted_entry_lists a ++ deleted_entry_lists b :=
  List.filterMap_append a b _

theorem deleted_entry_lists_get_queue {H A : Type} (P : Provider H A)
    (s : SqsState H) (qn : String) :
    deleted_entry_lists (get_queue P s qn).2.2 = [] := by
  cases h : dictGet s.queues qn with
  | some q => rw [get_queue_cached P s qn q h]; rfl
  | none => rw [get_queue_uncached P s qn h]; rfl

/-! ### `parse_messages` lemmas -/

theorem parse_messages_true_bad {J A : Type} (loads : String → Option J)
    (l : List (RawMsg A)) (hbad : ∃ m ∈ l, loads m.body = none) :
    parse_messages true loads l = .error SqsError.jsonDecodeError := by
  induction l with
  | nil => obtain ⟨m, hm, _⟩ := hbad; cases hm
  | cons msg rest ih =>
      cases hb : loads msg.body with
      | none =>
          simp only [parse_messages, hb]
          rfl
      | some v =>
          have hrest : ∃ m ∈ rest, loads m.body = none := by
            obtain ⟨m, hm, hnone⟩ := hbad
            rcases List.mem_cons.mp hm with rfl | hm2
            · rw [hb] at hnone; cases hnone
            · exact ⟨m, hm2, hnone⟩
          simp only [parse_messages, hb, ih hrest]
          rfl

theorem parse_messages_false_eq {J A : Type} (loads : String → Option J)
    (l : List (RawMsg A)) :
    parse_messages (J := J) false loads l = .ok (l.map (fun m =>
      { ReceiptHandle := m.receipt_handle, MessageId := m.message_id,
        Body := MsgBody.raw m.body, MessageAttributes := m.message_attributes,
        QueueUrl := m.queue_url, Attributes := m.attributes })) := by
  induction l with
  | nil => rfl
  | cons msg rest ih =>
      simp only [parse_messages, ih, List.map_cons]
      rfl

theorem parse_messages_true_ok {J A : Type} (loads : String → Option J)
    (l : List (RawMsg A)) (hsome : ∀ m ∈ l, (loads m.body).isSome) :
    ∃ res, parse_messages true loads l = .ok res ∧
      List.Forall₂ (fun m d =>
        (∃ v, loads m.body = some v ∧ d.Body = MsgBody.json v) ∧
        d.ReceiptHandle = m.receipt_handle ∧ d.MessageId = m.message_id ∧
        d.MessageAttributes = m.message_attributes ∧ d.QueueUrl = m.queue_url ∧
        d.Attributes = m.attributes) l res := by
  induction l with
  | nil => exact ⟨[], rfl, List.Forall₂.nil⟩
  | cons msg rest ih =>
      obtain ⟨tail, htail, hrel⟩ :=
        ih (fun x hx => hsome x (List.mem_cons_of_mem msg hx))
      obtain ⟨v, hv⟩ := Option.isSome_iff_exists.mp (hsome msg (List.mem_cons_self _ _))
      refine ⟨{ ReceiptHandle := msg.receipt_handle, MessageId := msg.message_id,
                Body := MsgBody.json v, MessageAttributes := msg.message_attributes,
                QueueUrl := msg.queue_url, Attributes := msg.attributes } :: tail,
        ?_, List.Forall₂.cons ⟨⟨v, hv, rfl⟩, rfl, rfl, rfl, rfl, rfl⟩ hrel⟩
      simp only [parse_messages, hv, htail]
      rfl

/-! ### Claim theorems -/

/-- C1: for a fixed client and queue name, the provider's by-name lookup
runs at most once over the client's lifetime: a cached `_get_queue` returns
the stored handle with no provider call, an uncached one performs the lookup
and stores the handle, any operation sequence from a fresh client performs
at most one lookup per name, and no operation replaces or removes a stored
mapping entry. -/
theorem sqs_resolve_memoized {H A J : Type} (P : Provider H A)
    (loads : String → Option J) (dumps : J → String) (rand : Nat → String)
    (qn : String) :
    (∀ (s : SqsState H) (q : H), dictGet s.queues qn = some q →
        get_queue P s qn = (q, s, []))
    ∧ (∀ s : SqsState H, dictGet s.queues qn = none →
        get_queue P s qn =
          (P.get_queue_by_name qn,
           { queues := dictSet s.queues qn (P.get_queue_by_name qn) },
           [Call.get_queue_by_name qn]))
    ∧ (∀ ops : List (Op J),
        count_lookups qn (run_ops P loads dumps rand { queues := [] } ops).2 ≤ 1)
    ∧ (∀ (s : SqsState H) (op : Op J) (q : H), dictGet s.queues qn = some q →
        dictGet (run_op P loads dumps rand s op).1.queues qn = some q) := by
  refine ⟨fun s q h => get_queue_cached P s qn q h,
    fun s h => get_queue_uncached P s qn h,
    fun ops => (run_ops_facts P loads dumps rand qn ops { queues := [] }).2,
    fun s op q h => ((run_op_facts P loads dumps rand s op qn).1 q h).1⟩

/-- Witness for C1 at concrete inputs: a cached name is returned as stored
with no provider call; two resolves and a receive from a fresh client make
one lookup; an unrelated operation preserves a stored entry. -/
theorem sqs_resolve_memoized_witness :
    get_queue provW ⟨[("Q", 3)]⟩ "Q" = (3, ⟨[("Q", 3)]⟩, []) ∧
    count_lookups "Q"
      (run_ops provW loadsW dumpsW randW ⟨[]⟩
        [Op.resolve "Q", Op.resolve "Q", Op.get "Q" ["All"] 10 10 true]).2 ≤ 1 ∧
    dictGet (run_op provW loadsW dumpsW randW ⟨[("Q", 3)]⟩
      (Op.resolve "A")).1.queues "Q" = some 3 :=
  ⟨(sqs_resolve_memoized provW loadsW dumpsW randW "Q").1 ⟨[("Q", 3)]⟩ 3 rfl,
   (sqs_resolve_memoized provW loadsW dumpsW randW "Q").2.2.1
     [Op.resolve "Q", Op.resolve "Q", Op.get "Q" ["All"] 10 10 true],
   (sqs_resolve_memoized provW loadsW dumpsW randW "Q").2.2.2 ⟨[("Q", 3)]⟩
     (Op.resolve "A") 3 rfl⟩

/-- C2: for a non-empty list of valid messages, `send_messages` partitions
the built entry list into consecutive chunks of at most
`MAX_SEND_MESSAGES_NUM` (10) entries and issues one provider batch send per
chunk in input order; the chunks concatenate back to the full entry list
(same count, same order), and 22 input messages yield exactly the chunk
sizes 10, 10, 2. -/
theorem sqs_send_chunking {H A J : Type} (P : Provider H A) (dumps : J → String)
    (rand : Nat → String) (s : SqsState H) (qn : String)
    (messages : List (OutMsg J)) (gid : Option Int)
    (hvalid : ∀ m ∈ messages, m ≠ OutMsg.other) (hne : messages ≠ []) :
    ∃ entries,
      build_send_entries dumps rand gid 0 messages = .ok entries ∧
      entries.length = messages.length ∧
      (send_messages P dumps rand s qn messages gid).1 = .ok () ∧
      sent_entry_lists (send_messages P dumps rand s qn messages gid).2.2.1 =
        chunksOf MAX_SEND_MESSAGES_NUM entries ∧
      (chunksOf MAX_SEND_MESSAGES_NUM entries).flatten = entries ∧
      (∀ c ∈ chunksOf MAX_SEND_MESSAGES_NUM entries,
        c.length ≤ MAX_SEND_MESSAGES_NUM ∧ c ≠ []) ∧
      (messages.length = 22 →
        (sent_entry_lists (send_messages P dumps rand s qn messages gid).2.2.1).map
          List.length = [10, 10, 2]) := by
  obtain ⟨entries, hb, hlen, _, _⟩ := build_send_entries_ok dumps rand gid messages hvalid 0
  have hu := send_messages_ok_unfold P dumps rand s qn messages gid entries hne hb
  have hsl : sent_entry_lists (send_messages P dumps rand s qn messages gid).2.2.1 =
      chunksOf MAX_SEND_MESSAGES_NUM entries := by
    rw [hu]
    simp only [sent_entry_lists_append, sent_entry_lists_get_queue,
      sent_entry_lists_map_send]
    simp
  refine ⟨entries, hb, hlen, by rw [hu], hsl,
    chunksOf_flatten MAX_SEND_MESSAGES_NUM entries,
    chunksOf_mem MAX_SEND_MESSAGES_NUM (by decide) entries, ?_⟩
  intro h22
  rw [hsl, map_length_chunksOf]
  rw [hlen, h22]
  decide

/-- Witness for C2: 22 concrete string messages are all valid and yield
exactly 3 batch-send calls of sizes 10, 10, 2. -/
theorem sqs_send_chunking_witness :
    (∀ m ∈ List.replicate 22 (OutMsg.str "m" : OutMsg String), m ≠ OutMsg.other) ∧
    List.replicate 22 (OutMsg.str "m" : OutMsg String) ≠ [] ∧
    ∃ entries,
      build_send_entries dumpsW randW none 0
        (List.replicate 22 (OutMsg.str "m")) = .ok entries ∧
      entries.length = (List.replicate 22 (OutMsg.str "m" : OutMsg String)).length ∧
      (send_messages provW dumpsW randW ⟨[]⟩ "Q"
        (List.replicate 22 (OutMsg.str "m")) none).1 = .ok () ∧
      sent_entry_lists (send_messages provW dumpsW randW ⟨[]⟩ "Q"
        (List.replicate 22 (OutMsg.str "m")) none).2.2.1 =
        chunksOf MAX_SEND_MESSAGES_NUM entries ∧
      (chunksOf MAX_SEND_MESSAGES_NUM entries).flatten = entries ∧
      (∀ c ∈ chunksOf MAX_SEND_MESSAGES_NUM entries,
        c.length ≤ MAX_SEND_MESSAGES_NUM ∧ c ≠ []) ∧
      ((List.replicate 22 (OutMsg.str "m" : OutMsg String)).length = 22 →
        (sent_entry_lists (send_messages provW dumpsW randW ⟨[]⟩ "Q"
          (List.replicate 22 (OutMsg.str "m")) none).2.2.1).map
          List.length = [10, 10, 2]) :=
  ⟨by decide, by decide,
   sqs_send_chunking provW dumpsW randW ⟨[]⟩ "Q"
     (List.replicate 22 (OutMsg.str "m")) none (by decide) (by decide)⟩

/-- C3: a `send_messages` input containing an element that is neither a dict
nor a string raises `TypeError` with zero provider calls (no queue lookup,
no batch send), unchanged state, and no debug record. -/
theorem sqs_send_type_validation {H A J : Type} (P : Provider H A)
    (dumps : J → String) (rand : Nat → String) (s : SqsState H) (qn : String)
    (messages : List (OutMsg J)) (gid : Option Int)
    (hbad : OutMsg.other ∈ messages) :
    send_messages P dumps rand s qn messages gid =
      (.error (SqsError.typeError "Message must be either a dictionary or a string"),
       s, [], 0) := by
  have hne : messages.isEmpty = false := by
    cases messages with
    | nil => cases hbad
    | cons a l => rfl
  simp [send_messages, hne, build_send_entries_other dumps rand gid messages hbad 0]

/-- Witness for C3: a list with a non-dict, non-string element raises
`TypeError` and triggers zero provider calls. -/
theorem sqs_send_type_validation_witness :
    OutMsg.other ∈ [OutMsg.str "a", (OutMsg.other : OutMsg String)] ∧
    send_messages provW dumpsW randW ⟨[]⟩ "Q"
      [OutMsg.str "a", (OutMsg.other : OutMsg String)] none =
      (.error (SqsError.typeError "Message must be either a dictionary or a string"),
       ⟨[]⟩, [], 0) :=
  ⟨by decide,
   sqs_send_type_validation provW dumpsW randW ⟨[]⟩ "Q"
     [OutMsg.str "a", OutMsg.other] none (by decide)⟩

/-- C8: every entry of every batch-send call carries the supplied group id
(`some g` when supplied, the field absent — `none` — when omitted). -/
theorem sqs_send_group_id {H A J : Type} (P : Provider H A) (dumps : J → String)
    (rand : Nat → String) (s : SqsState H) (qn : String)
    (messages : List (OutMsg J)) (gid : Option Int)
    (hvalid : ∀ m ∈ messages, m ≠ OutMsg.other) :
    ∀ c ∈ sent_entry_lists (send_messages P dumps rand s qn messages gid).2.2.1,
      ∀ e ∈ c, e.MessageGroupId = gid := by
  cases hms : messages with
  | nil =>
      subst hms
      intro c hc
      simp [send_messages, sent_entry_lists] at hc
  | cons m rest =>
      obtain ⟨entries, hb, _, hgid, _⟩ :=
        build_send_entries_ok dumps rand gid messages hvalid 0
      have hu := send_messages_ok_unfold P dumps rand s qn messages gid entries
        (by rw [hms]; simp) hb
      have hsl : sent_entry_lists (send_messages P dumps rand s qn messages gid).2.2.1 =
          chunksOf MAX_SEND_MESSAGES_NUM entries := by
        rw [hu]
        simp only [sent_entry_lists_append, sent_entry_lists_get_queue,
          sent_entry_lists_map_send]
        simp
      intro c hc e hec
      rw [← hms] at hc
      rw [hsl] at hc
      have hmem : e ∈ entries := by
        rw [← chunksOf_flatten MAX_SEND_MESSAGES_NUM entries]
        exact List.mem_flatten.mpr ⟨c, hc, hec⟩
      exact hgid e hmem

/-- Witness for C8: one valid message sent with group id `5` produces entries
whose group-id field is `some 5`. -/
theorem sqs_send_group_id_witness :
    (∀ m ∈ [(OutMsg.str "m" : OutMsg String)], m ≠ OutMsg.other) ∧
    ∀ c ∈ sent_entry_lists (send_messages provW dumpsW randW ⟨[]⟩ "Q"
        [OutMsg.str "m"] (some 5)).2.2.1,
      ∀ e ∈ c, e.MessageGroupId = some 5 :=
  ⟨by decide,
   sqs_send_group_id provW dumpsW randW ⟨[]⟩ "Q" [OutMsg.str "m"] (some 5) (by decide)⟩

/-- C4: `delete_messages` and `send_messages` on an empty message list make
zero provider calls, emit exactly one debug record, return normally, and
leave the client state unchanged. -/
theorem sqs_empty_input_noop {H A J : Type} (P : Provider H A) (dumps : J → String)
    (rand : Nat → String) (s : SqsState H) (qn : String) (gid : Option Int) :
    delete_messages P s qn [] = (.ok (), s, [], 1) ∧
    send_messages P dumps rand s qn ([] : List (OutMsg J)) gid = (.ok (), s, [], 1) :=
  ⟨rfl, rfl⟩

/-- C5: `delete_messages` on a non-empty list whose elements all expose both
fields resolves the queue and issues exactly one batch-delete call, with one
entry per input message in input order, each pairing that message's id and
receipt handle verbatim. -/
theorem sqs_delete_batch {H A : Type} (P : Provider H A) (s : SqsState H)
    (qn : String) (messages : List MsgRef) (hne : messages ≠ [])
    (hfields : ∀ m ∈ messages, m.MessageId.isSome ∧ m.ReceiptHandle.isSome) :
    ∃ entries,
      build_delete_entries messages = .ok entries ∧
      (delete_messages P s qn messages).1 = .ok () ∧
      (delete_messages P s qn messages).2.2.1 =
        (get_queue P s qn).2.2 ++
          [Call.delete_messages (get_queue P s qn).1 entries] ∧
      deleted_entry_lists (delete_messages P s qn messages).2.2.1 = [entries] ∧
      entries.length = messages.length ∧
      List.Forall₂ (fun m e =>
        m.MessageId = some e.Id ∧ m.ReceiptHandle = some e.ReceiptHandle)
        messages entries := by
  obtain ⟨entries, hb, hlen, hrel⟩ := build_delete_entries_ok messages hfields
  have hu := delete_messages_ok_unfold P s qn messages entries hne hb
  refine ⟨entries, hb, by rw [hu], by rw [hu], ?_, hlen, hrel⟩
  rw [hu]
  simp only [deleted_entry_lists_append, deleted_entry_lists_get_queue]
  rfl

/-- Witness for C5: deleting two concrete messages issues one batch-delete
call whose two entries match the inputs verbatim. -/
theorem sqs_delete_batch_witness :
    ([(⟨some "i1", some "r1"⟩ : MsgRef), ⟨some "i2", some "r2"⟩] ≠ []) ∧
    (∀ m ∈ [(⟨some "i1", some "r1"⟩ : MsgRef), ⟨some "i2", some "r2"⟩],
      m.MessageId.isSome ∧ m.ReceiptHandle.isSome) ∧
    ∃ entries,
      build_delete_entries [(⟨some "i1", some "r1"⟩ : MsgRef), ⟨some "i2", some "r2"⟩] =
        .ok entries ∧
      (delete_messages provW ⟨[]⟩ "Q"
        [(⟨some "i1", some "r1"⟩ : MsgRef), ⟨some "i2", some "r2"⟩]).1 = .ok () ∧
      (delete_messages provW ⟨[]⟩ "Q"
        [(⟨some "i1", some "r1"⟩ : MsgRef), ⟨some "i2", some "r2"⟩]).2.2.1 =
        (get_queue provW ⟨[]⟩ "Q").2.2 ++
          [Call.delete_messages (get_queue provW ⟨[]⟩ "Q").1 entries] ∧
      deleted_entry_lists (delete_messages provW ⟨[]⟩ "Q"
        [(⟨some "i1", some "r1"⟩ : MsgRef), ⟨some "i2", some "r2"⟩]).2.2.1 = [entries] ∧
      entries.length =
        [(⟨some "i1", some "r1"⟩ : MsgRef), ⟨some "i2", some "r2"⟩].length ∧
      List.Forall₂ (fun m e =>
        m.MessageId = some e.Id ∧ m.ReceiptHandle = some e.ReceiptHandle)
        [(⟨some "i1", some "r1"⟩ : MsgRef), ⟨some "i2", some "r2"⟩] entries :=
  ⟨by decide, by decide,
   sqs_delete_batch provW ⟨[]⟩ "Q"
     [⟨some "i1", some "r1"⟩, ⟨some "i2", some "r2"⟩] (by decide) (by decide)⟩

/-- C10: `delete_messages` on a non-empty list with an element lacking the
message id or the receipt handle fails with `KeyError` on that field before
any provider call (no queue lookup), leaving the cache state unchanged. -/
theorem sqs_delete_missing_field {H A : Type} (P : Provider H A) (s : SqsState H)
    (qn : String) (messages : List MsgRef)
    (hmiss : ∃ m ∈ messages, m.MessageId = none ∨ m.ReceiptHandle = none) :
    ∃ k, delete_messages P s qn messages = (.error (SqsError.keyError k), s, [], 0) ∧
      (k = "MessageId" ∨ k = "ReceiptHandle") := by
  obtain ⟨k, hk, hor⟩ := build_delete_entries_missing messages hmiss
  have hne : messages ≠ [] := by
    rintro rfl
    obtain ⟨m, hm, _⟩ := hmiss
    cases hm
  have hl : messages.length > 0 := List.length_pos.mpr hne
  exact ⟨k, by simp [delete_messages, hl, hk], hor⟩

/-- Witness for C10: a message without a receipt handle makes delete fail
with `KeyError` and no provider call. -/
theorem sqs_delete_missing_field_witness :
    (∃ m ∈ [(⟨some "i", none⟩ : MsgRef)],
      m.MessageId = none ∨ m.ReceiptHandle = none) ∧
    ∃ k, delete_messages provW ⟨[]⟩ "Q" [(⟨some "i", none⟩ : MsgRef)] =
        (.error (SqsError.keyError k), ⟨[]⟩, [], 0) ∧
      (k = "MessageId" ∨ k = "ReceiptHandle") :=
  ⟨by decide, sqs_delete_missing_field provW ⟨[]⟩ "Q" [⟨some "i", none⟩] (by decide)⟩

/-- C9: constructing the client with a non-`Boto3` provider handle fails with
`NotImplementedError`; constructing it with a `Boto3` handle succeeds and
starts with an empty name-to-handle mapping. -/
theorem sqs_init_gating {H A : Type} :
    (∀ res : Provider H A, sqs_init (BotoArg.boto3 res) = .ok { queues := [] }) ∧
    sqs_init (BotoArg.other : BotoArg H A) =
      .error (SqsError.notImplementedError
        "Currently krux_boto.sqs.Sqs only supports krux_boto.boto.Boto3") :=
  ⟨fun _ => rfl, rfl⟩

/-- C6: when some received message body fails structured decoding,
`get_messages` with `is_json = true` aborts with the decode error and returns
no partial result list. -/
theorem sqs_receive_malformed {H A J : Type} (P : Provider H A)
    (loads : String → Option J) (s : SqsState H) (qn : String)
    (attrs : List String) (nm t : Nat)
    (hbad : ∃ m ∈ P.receive_messages (get_queue P s qn).1 attrs nm t,
      loads m.body = none) :
    (get_messages P loads s qn attrs nm t true).1 = .error SqsError.jsonDecodeError := by
  have h := parse_messages_true_bad loads
    (P.receive_messages (get_queue P s qn).1 attrs nm t) hbad
  simpa [get_messages] using h

/-- Witness for C6: a provider message with undecodable body `"bad"` makes
the whole receive call fail. -/
theorem sqs_receive_malformed_witness :
    (∃ m ∈ provBadW.receive_messages (get_queue provBadW ⟨[]⟩ "Q").1 ["All"] 10 10,
      loadsW m.body = none) ∧
    (get_messages provBadW loadsW ⟨[]⟩ "Q" ["All"] 10 10 true).1 =
      .error SqsError.jsonDecodeError :=
  ⟨by decide, sqs_receive_malformed provBadW loadsW ⟨[]⟩ "Q" ["All"] 10 10 (by decide)⟩

/-- C7: when every received body is the serialization of a structured value
and decoding inverts serialization, `get_messages` with `is_json = true`
yields message dicts whose body is that structured value, and with
`is_json = false` whose body is the raw text unchanged; in both modes the
receipt handle, message id, attribute maps, and queue URL are taken verbatim
from the provider message. -/
theorem sqs_receive_body_modes {H A J : Type} (P : Provider H A)
    (loads : String → Option J) (dumps : J → String) (s : SqsState H)
    (qn : String) (attrs : List String) (nm t : Nat)
    (hrt : ∀ v, loads (dumps v) = some v)
    (hser : ∀ m ∈ P.receive_messages (get_queue P s qn).1 attrs nm t,
      ∃ v, m.body = dumps v) :
    (∃ res, (get_messages P loads s qn attrs nm t true).1 = .ok res ∧
      List.Forall₂ (fun m d =>
        (∀ v, m.body = dumps v → d.Body = MsgBody.json v) ∧
        d.ReceiptHandle = m.receipt_handle ∧ d.MessageId = m.message_id ∧
        d.MessageAttributes = m.message_attributes ∧ d.QueueUrl = m.queue_url ∧
        d.Attributes = m.attributes)
        (P.receive_messages (get_queue P s qn).1 attrs nm t) res)
    ∧ (∃ res, (get_messages P loads s qn attrs nm t false).1 = .ok res ∧
      List.Forall₂ (fun m d =>
        d.Body = MsgBody.raw m.body ∧
        d.ReceiptHandle = m.receipt_handle ∧ d.MessageId = m.message_id ∧
        d.MessageAttributes = m.message_attributes ∧ d.QueueUrl = m.queue_url ∧
        d.Attributes = m.attributes)
        (P.receive_messages (get_queue P s qn).1 attrs nm t) res) := by
  constructor
  · have hsome : ∀ m ∈ P.receive_messages (get_queue P s qn).1 attrs nm t,
        (loads m.body).isSome := by
      intro m hm
      obtain ⟨v, hv⟩ := hser m hm
      rw [hv, hrt v]
      rfl
    obtain ⟨res, hres, hrel⟩ := parse_messages_true_ok loads
      (P.receive_messages (get_queue P s qn).1 attrs nm t) hsome
    refine ⟨res, by simpa [get_messages] using hres, ?_⟩
    refine hrel.imp (fun m d hmd => ⟨?_, hmd.2⟩)
    intro v hv
    obtain ⟨⟨v2, hv2, hbody⟩, _⟩ := hmd
    rw [hv, hrt v] at hv2
    rw [hbody]
    cases hv2
    rfl
  · have h := parse_messages_false_eq (J := J) loads
      (P.receive_messages (get_queue P s qn).1 attrs nm t)
    refine ⟨_, by simpa [get_messages] using h, ?_⟩
    clear hser
    induction P.receive_messages (get_queue P s qn).1 attrs nm t with
    | nil => exact List.Forall₂.nil
    | cons m rest ih =>
        exact List.Forall₂.cons ⟨rfl, rfl, rfl, rfl, rfl, rfl⟩ ih

/-- Witness for C7: with an identity codec, a body `"42"` comes back as the
structured value `"42"` in JSON mode and as the raw text `"42"` otherwise,
with the other fields verbatim. -/
theorem sqs_receive_body_modes_witness :
    (∀ v : String, loadsIdW (dumpsW v) = some v) ∧
    (∀ m ∈ provW.receive_messages (get_queue provW ⟨[]⟩ "Q").1 ["All"] 10 10,
      ∃ v, m.body = dumpsW v) ∧
    ((∃ res, (get_messages provW loadsIdW ⟨[]⟩ "Q" ["All"] 10 10 true).1 = .ok res ∧
      List.Forall₂ (fun m d =>
        (∀ v, m.body = dumpsW v → d.Body = MsgBody.json v) ∧
        d.ReceiptHandle = m.receipt_handle ∧ d.MessageId = m.message_id ∧
        d.MessageAttributes = m.message_attributes ∧ d.QueueUrl = m.queue_url ∧
        d.Attributes = m.attributes)
        (provW.receive_messages (get_queue provW ⟨[]⟩ "Q").1 ["All"] 10 10) res)
    ∧ (∃ res, (get_messages provW loadsIdW ⟨[]⟩ "Q" ["All"] 10 10 false).1 = .ok res ∧
      List.Forall₂ (fun m d =>
        d.Body = MsgBody.raw m.body ∧
        d.ReceiptHandle = m.receipt_handle ∧ d.MessageId = m.message_id ∧
        d.MessageAttributes = m.message_attributes ∧ d.QueueUrl = m.queue_url ∧
        d.Attributes = m.attributes)
        (provW.receive_messages (get_queue provW ⟨[]⟩ "Q").1 ["All"] 10 10) res)) :=
  ⟨fun _ => rfl, fun m _ => ⟨m.body, rfl⟩,
   sqs_receive_body_modes provW loadsIdW dumpsW ⟨[]⟩ "Q" ["All"] 10 10
     (fun _ => rfl) (fun m _ => ⟨m.body, rfl⟩)⟩

end KruxSqs
